import Mathlib

/-!
Verification of the Flex-Optimizer stop-list reconciliation and route-state
logic, shallowly embedded from the TypeScript sources:

- data model from types.ts (with the optional status and isCurrentStop
  fields used by the web app variant and its AI service schema);
- ingestion merger and processing flow from handleProcessRoute (App.tsx and
  the web App variant);
- current-stop recompute from updateRouteAndCurrentStop (web App variant);
- route mutations from RouteDisplay.tsx (drag-drop, move, delete by index,
  reset order, field edit by index) and from the mobile RouteDisplay
  (field edit keyed by originalStopNumber);
- Google Maps link generation from RouteDisplay.tsx and the mobile
  RouteDisplay (createUrl / chunking loop);
- the optimization flow performOptimization (web App variant).

JavaScript behaviour that cannot be represented as a value (a thrown
TypeError, or an array corrupted by inserting undefined) is modelled by
Option: a handler returns none exactly when the source would throw or
produce an array containing undefined.
-/

namespace FlexOptimizer

/-- Tag for the optional type field of a stop: the literal union
delivery | location in types.ts. -/
inductive StopKind where
  | delivery
  | location
deriving DecidableEq

/-- Status enum of a stop: pending | delivered | attempted | skipped,
as in the AI service schema of the web variant. -/
inductive StopStatus where
  | pending
  | delivered
  | attempted
  | skipped
deriving DecidableEq

/-- One stop, mirroring the RouteStop interface of types.ts plus the
optional status / completedAt-free fields the web variant uses.
packageType and stopType are kept as strings since the code only moves
those strings around. -/
structure RouteStop where
  originalStopNumber : Int
  street : String
  city : String
  state : String
  zip : String
  label : String
  packageType : String
  tba : String
  packageLabel : String
  stopType : String
  deliveryWindowEnd : Option String
  isPriority : Option Bool
  type : Option StopKind
  status : Option StopStatus
  isCurrentStop : Option Bool
deriving DecidableEq

/-- Default stop used only to give RouteStop an Inhabited instance for
headI / getLastI style access in the link generator. -/
def defaultStop : RouteStop :=
  { originalStopNumber := 0, street := "", city := "", state := "", zip := ""
    label := "", packageType := "", tba := "", packageLabel := "", stopType := ""
    deliveryWindowEnd := none, isPriority := none, type := none, status := none
    isCurrentStop := none }

instance : Inhabited RouteStop := ⟨defaultStop⟩

/-- The check s.type === 'location' used throughout the sources. -/
def isLocationStop (s : RouteStop) : Bool :=
  s.type = some StopKind.location

/-- The filter stops.filter(s => s.type !== 'location') used to obtain the
delivery sub-sequence of a route. -/
def deliveries (route : List RouteStop) : List RouteStop :=
  route.filter (fun s => !isLocationStop s)

/-- The lookup route.find(s => s.type === 'location') for the location
pseudo-stop. -/
def findLocationStop (route : List RouteStop) : Option RouteStop :=
  route.find? isLocationStop

/-- Rebuild a route from its delivery list the way every RouteDisplay
handler does: locationStop ? [locationStop, ...newDeliveryStops]
: newDeliveryStops. -/
def withLocationHead (route ds : List RouteStop) : List RouteStop :=
  match findLocationStop route with
  | some l => l :: ds
  | none => ds

/-- A route is well formed when it equals the rebuild of its own delivery
list: the (unique) location stop, if present, is the head, followed by
delivery stops only. -/
def WellFormed (route : List RouteStop) : Prop :=
  withLocationHead route (deliveries route) = route

/-! ## Ingestion merger (handleProcessRoute in App.tsx / web App variant) -/

/-- Result of one screenshot extraction call: stops plus the optional
route block code. -/
structure ExtractResult where
  stops : List RouteStop
  routeBlockCode : Option String
deriving DecidableEq

/-- One step of the uniqueStopsMap loop: if the map does not yet hold the
originalStopNumber key, insert the stop; a JS Map preserves insertion
order, so the map is modelled as the list of its values. -/
def insertUnique (m : List RouteStop) (s : RouteStop) : List RouteStop :=
  if m.any (fun t => t.originalStopNumber = s.originalStopNumber) then m
  else m ++ [s]

/-- The for-loop filling uniqueStopsMap over the flattened stop list,
yielding Array.from(uniqueStopsMap.values()): first occurrence per
originalStopNumber, in first-occurrence order. -/
def uniqueStops (stops : List RouteStop) : List RouteStop :=
  stops.foldl insertUnique []

/-- The spread {...stop, type: 'delivery'} applied to each kept stop. -/
def markDelivery (s : RouteStop) : RouteStop :=
  { s with type := some StopKind.delivery }

/-- Ordering used by the comparator sort
(a, b) => a.originalStopNumber - b.originalStopNumber. -/
def stopNumLe (a b : RouteStop) : Prop :=
  a.originalStopNumber ≤ b.originalStopNumber

instance : DecidableRel stopNumLe :=
  fun a b => inferInstanceAs (Decidable (a.originalStopNumber ≤ b.originalStopNumber))

instance : IsTotal RouteStop stopNumLe :=
  ⟨fun a b => Int.le_total a.originalStopNumber b.originalStopNumber⟩

instance : IsTrans RouteStop stopNumLe :=
  ⟨fun _ _ _ h h2 => le_trans h h2⟩

/-- The JS comparator sort (a, b) => a.originalStopNumber -
b.originalStopNumber: an ascending stable sort by stop number, modelled
by a stable sorting algorithm. -/
def sortByStopNumber (l : List RouteStop) : List RouteStop :=
  List.insertionSort stopNumLe l

/-- Whole merger pipeline of handleProcessRoute: flatten the batches,
deduplicate first-wins by originalStopNumber, tag the kept stops as
delivery, sort ascending by originalStopNumber. -/
def mergedStops (results : List ExtractResult) : List RouteStop :=
  sortByStopNumber ((uniqueStops ((results.map ExtractResult.stops).flatten)).map markDelivery)

/-! ## Current-stop recompute (updateRouteAndCurrentStop, web App variant) -/

/-- The isCompleted check: stop.status && stop.status !== 'pending'. -/
def isCompleted (s : RouteStop) : Bool :=
  match s.status with
  | some st => st ≠ StopStatus.pending
  | none => false

/-- Write the derived isCurrentStop flag, the spread
{...stop, isCurrentStop: b}. -/
def setCurrent (s : RouteStop) (b : Bool) : RouteStop :=
  { s with isCurrentStop := some b }

/-- A stop eligible to be the current stop: not the location pseudo-stop
and not completed (status pending or absent). -/
def eligible (s : RouteStop) : Bool :=
  !(isLocationStop s || isCompleted s)

/-- The map body of updateRouteAndCurrentStop, threading the
currentStopFound flag: the first stop that is neither the location stop
nor completed gets isCurrentStop = true, every other stop false. -/
def updateStops (found : Bool) : List RouteStop → List RouteStop
  | [] => []
  | s :: rest =>
    if isLocationStop s || isCompleted s then
      setCurrent s false :: updateStops found rest
    else if !found then
      setCurrent s true :: updateStops true rest
    else
      setCurrent s false :: updateStops found rest

/-- Recompute of the current-stop flag over a whole stop list, starting
with currentStopFound = false. -/
def updateCurrent (l : List RouteStop) : List RouteStop :=
  updateStops false l

/-- updateRouteAndCurrentStop itself: null clears the route, otherwise the
recompute runs over the new route. -/
def updateRouteAndCurrentStop (r : Option (List RouteStop)) : Option (List RouteStop) :=
  r.map updateCurrent

/-! ## Route mutations (RouteDisplay.tsx, plus the mobile RouteDisplay) -/

/-- Editable string-valued fields reachable through handleFieldChange. -/
inductive EditField where
  | label
  | packageType
  | packageLabel
  | tba
  | stopType
deriving DecidableEq

/-- Assignment stop[field] = value for one editable field. -/
def setField (s : RouteStop) (f : EditField) (v : String) : RouteStop :=
  match f with
  | EditField.label => { s with label := v }
  | EditField.packageType => { s with packageType := v }
  | EditField.packageLabel => { s with packageLabel := v }
  | EditField.tba => { s with tba := v }
  | EditField.stopType => { s with stopType := v }

/-- JS Array.prototype.splice(k, 0, x): insertion at index k, clamped to
the array length (an index past the end appends). -/
def jsInsert (k : Nat) (x : α) (l : List α) : List α :=
  l.take k ++ x :: l.drop k

/-- The delivery-level effect of each RouteDisplay mutation. none models a
JS execution that leaves the value world: indexing past the end yields
undefined, which the handler would then write into the new array (drop,
move) or dereference for a property write (fieldChange, a TypeError). -/
inductive MutOp where
  | drop (dragIdx dropIdx : Nat)
  | move (index : Nat) (up : Bool)
  | deleteAt (index : Nat)
  | resetOrder
  | fieldChange (index : Nat) (f : EditField) (v : String)
deriving DecidableEq

/-- Delivery-sub-sequence transformation of each mutation, mirroring the
handler bodies of RouteDisplay.tsx (splice, filter by index, comparator
sort, indexed assignment). -/
def mutDeliveries : MutOp → List RouteStop → Option (List RouteStop)
  | MutOp.drop dragIdx dropIdx, ds =>
    if dragIdx = dropIdx then some ds
    else (ds.get? dragIdx).map (fun removed => jsInsert dropIdx removed (ds.eraseIdx dragIdx))
  | MutOp.move index up, ds =>
    let newIndex : Int := if up then (index : Int) - 1 else (index : Int) + 1
    if newIndex < 0 ∨ (ds.length : Int) ≤ newIndex then some ds
    else (ds.get? index).map (fun item => jsInsert newIndex.toNat item (ds.eraseIdx index))
  | MutOp.deleteAt index, ds =>
    some ((ds.enum.filter (fun p => p.1 ≠ index)).map Prod.snd)
  | MutOp.resetOrder, ds => some (sortByStopNumber ds)
  | MutOp.fieldChange index f v, ds =>
    (ds.get? index).map (fun s => ds.set index (setField s f v))

/-- One RouteDisplay mutation over the whole route. The early returns of
handleDrop (drop on the dragged index itself) and handleMove (target index
out of range) leave the route untouched without rebuilding it; every other
path rebuilds locationStop ? [locationStop, ...newDeliveryStops]
: newDeliveryStops. -/
def applyMut (op : MutOp) (route : List RouteStop) : Option (List RouteStop) :=
  match op with
  | MutOp.drop dragIdx dropIdx =>
    if dragIdx = dropIdx then some route
    else (mutDeliveries (MutOp.drop dragIdx dropIdx) (deliveries route)).map (withLocationHead route)
  | MutOp.move index up =>
    let ds := deliveries route
    let newIndex : Int := if up then (index : Int) - 1 else (index : Int) + 1
    if newIndex < 0 ∨ (ds.length : Int) ≤ newIndex then some route
    else (mutDeliveries (MutOp.move index up) ds).map (withLocationHead route)
  | op => (mutDeliveries op (deliveries route)).map (withLocationHead route)

/-- handleFieldChange of the mobile RouteDisplay: the edit is keyed by
originalStopNumber through a map, so an unknown key edits nothing. -/
def handleFieldChangeMobile (num : Int) (f : EditField) (v : String)
    (route : List RouteStop) : List RouteStop :=
  withLocationHead route
    ((deliveries route).map
      (fun s => if s.originalStopNumber = num then setField s f v else s))

/-! ## Google Maps link generation -/

/-- Characters encodeURIComponent leaves unescaped: letters, digits, and
- _ . ! ~ * ( ) plus the single quote. -/
def isUnreservedChar (c : Char) : Bool :=
  c.isAlpha || c.isDigit ||
    c = '-' || c = '_' || c = '.' || c = '!' || c = '~' || c = '*' ||
    c = Char.ofNat 39 || c = '(' || c = ')'

/-- Upper-case hexadecimal digit of a value below 16. -/
def hexDigit (n : Nat) : Char :=
  if n < 10 then Char.ofNat (48 + n) else Char.ofNat (55 + n)

/-- Percent-encoding of one byte, upper-case as encodeURIComponent
produces it. -/
def encodeByte (b : UInt8) : String :=
  String.mk ['%', hexDigit (b.toNat / 16), hexDigit (b.toNat % 16)]

/-- Model of encodeURIComponent: unreserved characters pass through,
every other character is percent-encoded per UTF-8 byte. -/
def encodeURIComponent (s : String) : String :=
  String.join (s.data.map (fun c =>
    if isUnreservedChar c then String.singleton c
    else String.join (((String.singleton c).toUTF8.toList).map encodeByte)))

/-- The address template of both link generators:
street, city, state zip. -/
def addressOf (s : RouteStop) : String :=
  s.street ++ ", " ++ s.city ++ ", " ++ s.state ++ " " ++ s.zip

/-- A generated label/url pair. -/
structure GoogleMapsLink where
  label : String
  url : String
deriving DecidableEq

/-- The search-style link for a single address. -/
def searchUrl (s : RouteStop) : String :=
  "https://www.google.com/maps/search/?api=1&query=" ++
    encodeURIComponent (addressOf s)

/-- The directions link: first stop origin, last stop destination, the
stops between as waypoints joined by the pipe character, all in list
order. -/
def dirUrl (chunk : List RouteStop) : String :=
  let encodedAddresses := chunk.map (fun s => encodeURIComponent (addressOf s))
  "https://www.google.com/maps/dir/?api=1&origin=" ++
    encodedAddresses.headI ++
    "&destination=" ++ encodedAddresses.getLastI ++
    "&waypoints=" ++
    String.intercalate "|" (encodedAddresses.drop 1).dropLast

/-- createUrl of the mobile RouteDisplay: a one-stop chunk becomes a
search link, anything longer a directions link. -/
def createUrl (chunk : List RouteStop) : String :=
  if chunk.length = 1 then searchUrl chunk.headI else dirUrl chunk

/-- The k-th chunk of the for-loop
for (i = 0; i < N; i += limit) chunk = slice(i, i + limit), at
i = k * limit. -/
def chunkAt (limit : Nat) (ds : List RouteStop) (k : Nat) : List RouteStop :=
  (ds.drop (k * limit)).take limit

/-- Label of the k-th chunk: Open Route (Stops i+1 - i+chunk.length). -/
def chunkLabel (limit : Nat) (ds : List RouteStop) (k : Nat) : String :=
  "Open Route (Stops " ++ toString (k * limit + 1) ++ " - " ++
    toString (k * limit + (chunkAt limit ds k).length) ++ ")"

/-- Number of loop iterations: indices 0, limit, 2*limit, ... below N. -/
def numChunks (limit n : Nat) : Nat :=
  (n + limit - 1) / limit

/-- The chunking loop producing one link per chunk. -/
def chunkLinks (limit : Nat) (mkUrl : List RouteStop → String)
    (ds : List RouteStop) : List GoogleMapsLink :=
  (List.range (numChunks limit ds.length)).map
    (fun k => { label := chunkLabel limit ds k, url := mkUrl (chunkAt limit ds k) })

/-- The mobile generateGoogleMapsLinks with the waypoint limit abstracted
as configuration: no links for an empty delivery list, a single
createUrl link up to the limit, otherwise the chunking loop. -/
def generateGoogleMapsLinksWith (limit : Nat) (stops : List RouteStop) :
    List GoogleMapsLink :=
  let ds := deliveries stops
  if ds.length = 0 then []
  else if ds.length ≤ limit then
    [{ label := "Open in Google Maps", url := createUrl ds }]
  else chunkLinks limit createUrl ds

/-- The mobile generator, limit 10. -/
def generateGoogleMapsLinksMobile (stops : List RouteStop) : List GoogleMapsLink :=
  generateGoogleMapsLinksWith 10 stops

/-- The web generateGoogleMapsLinks of RouteDisplay.tsx, limit 20: the
single-link branch distinguishes one stop (search) from several
(directions), and the chunk loop always emits directions links. -/
def generateGoogleMapsLinksWeb (stops : List RouteStop) : List GoogleMapsLink :=
  let ds := deliveries stops
  if ds.length = 0 then []
  else if ds.length ≤ 20 then
    if ds.length = 1 then
      [{ label := "Open in Google Maps", url := searchUrl ds.headI }]
    else
      [{ label := "Open in Google Maps", url := dirUrl ds }]
  else chunkLinks 20 dirUrl ds

/-! ## Processing flow (handleProcessRoute, web App variant) -/

/-- Subscription tier of the user. -/
inductive Tier where
  | free
  | pro
deriving DecidableEq

/-- The error message of the free-limit branch (paraphrased without the
contraction of the source text, content otherwise identical). -/
def freeLimitMessage : String :=
  "You have reached your free limit of 5 routes per month. Please upgrade to Pro."

/-- The error message when no stops could be merged. -/
def noAddressesMessage : String :=
  "Could not extract any addresses from the images. Please try other screenshots."

/-- The error message when no screenshot was selected. -/
def noScreenshotsMessage : String :=
  "Please upload one or more screenshots first."

/-- App state read by handleProcessRoute. -/
structure ProcessState where
  screenshotCount : Nat
  tier : Tier
  routeCount : Nat
  route : Option (List RouteStop)
deriving DecidableEq

/-- Observable outcome of one handleProcessRoute run: the route and error
after the call, whether the subscription modal was opened, the persisted
Free-tier route counter, and whether any extraction call was dispatched. -/
structure ProcessOut where
  route : Option (List RouteStop)
  error : Option String
  subModalOpen : Bool
  routeCount : Nat
  extractionCalled : Bool
deriving DecidableEq

/-- handleProcessRoute of the web App variant. The concurrent extraction
calls are summarised by their settled outcome: an error if any call
rejected, otherwise the list of per-screenshot results. The route is
cleared before the await, so both failure paths end with a null route. -/
def handleProcessRoute (st : ProcessState)
    (results : Except String (List ExtractResult)) : ProcessOut :=
  if st.screenshotCount = 0 then
    { route := st.route, error := some noScreenshotsMessage, subModalOpen := false
      routeCount := st.routeCount, extractionCalled := false }
  else if st.tier = Tier.free ∧ 5 ≤ st.routeCount then
    { route := st.route, error := some freeLimitMessage, subModalOpen := true
      routeCount := st.routeCount, extractionCalled := false }
  else
    match results with
    | Except.error e =>
      { route := none, error := some e, subModalOpen := false
        routeCount := st.routeCount, extractionCalled := true }
    | Except.ok rs =>
      let addresses := mergedStops rs
      if addresses.length > 0 then
        { route := some (updateCurrent addresses), error := none, subModalOpen := false
          routeCount := if st.tier = Tier.free then st.routeCount + 1 else st.routeCount
          extractionCalled := true }
      else
        { route := none, error := some noAddressesMessage, subModalOpen := false
          routeCount := st.routeCount, extractionCalled := true }

/-! ## Optimization flow (performOptimization, web App variant) -/

/-- The synthetic current-location stop literal built when a start
location is supplied, status delivered so it never becomes current. -/
def currentLocationStop : RouteStop :=
  { originalStopNumber := 0, street := "Your Current Location"
    city := "Start of route", state := "", zip := "", label := ""
    packageType := "Unknown", tba := "", packageLabel := ""
    type := some StopKind.location, stopType := "Unknown"
    status := some StopStatus.delivered
    deliveryWindowEnd := none, isPriority := none, isCurrentStop := none }

/-- Observable outcome of one performOptimization run. -/
structure OptimizeOut where
  route : Option (List RouteStop)
  error : Option String
deriving DecidableEq

/-- performOptimization: on a rejected optimize call the error message is
surfaced and the route state is not written; on success the route is
replaced by the returned stops (prepending the location literal when a
start location was used) and the current-stop recompute runs. No identity
validation is performed on the returned stops. -/
def performOptimization (route : Option (List RouteStop))
    (location : Option (Int × Int))
    (result : Except String (List RouteStop)) : OptimizeOut :=
  match result with
  | Except.error e => { route := route, error := some e }
  | Except.ok optimized =>
    match location with
    | some _ =>
      { route := updateRouteAndCurrentStop (some (currentLocationStop :: optimized))
        error := none }
    | none =>
      { route := updateRouteAndCurrentStop (some optimized), error := none }

/-- The multiset-free identity view used to talk about permutations of
stop identities: the set of originalStopNumbers of a list. -/
def idsOf (l : List RouteStop) : List Int :=
  l.map RouteStop.originalStopNumber

/-! ## Concrete inputs used by the witnesses -/

/-- A raw extracted stop as the extraction call returns it (no type tag
yet). -/
def mkStop (n : Int) (street : String) : RouteStop :=
  { defaultStop with originalStopNumber := n, street := street }

/-- A delivery stop as it sits in a route after ingestion. -/
def mkDelivery (n : Int) (street : String) : RouteStop :=
  { defaultStop with originalStopNumber := n, street := street
                     type := some StopKind.delivery }

/-- A delivery stop already marked delivered. -/
def mkDone (n : Int) (street : String) : RouteStop :=
  { mkDelivery n street with status := some StopStatus.delivered }

/-- A location pseudo-stop. -/
def demoLocation : RouteStop :=
  { defaultStop with street := "Your Current Location"
                     type := some StopKind.location }

/-- Two overlapping screenshot batches: stop 1 appears in both, with the
earlier batch carrying street B St. -/
def demoBatches : List ExtractResult :=
  [{ stops := [mkStop 3 "A St", mkStop 1 "B St"], routeBlockCode := none },
   { stops := [mkStop 1 "B dup", mkStop 2 "C St"], routeBlockCode := none }]

/-- Route for the current-stop witness: location head, one delivered stop,
two pending stops. -/
def demoStatusRoute : List RouteStop :=
  [demoLocation, mkDone 1 "D1", mkDelivery 2 "P2", mkDelivery 3 "P3"]

/-- Route for the mutation witnesses: location head plus three delivery
stops. -/
def demoRoute3 : List RouteStop :=
  [demoLocation, mkDelivery 1 "A", mkDelivery 2 "B", mkDelivery 3 "C"]

/-- Result of moving the third delivery stop up within demoRoute3. -/
def demoMoved : List RouteStop :=
  [demoLocation, mkDelivery 1 "A", mkDelivery 3 "C", mkDelivery 2 "B"]

/-- Route of 25 delivery stops for the chunking witness. -/
def demoStops25 : List RouteStop :=
  (List.range 25).map (fun i => mkDelivery (Int.ofNat i + 1) "S")

/-- Route with two pending delivery stops, for the optimization
counterexample. -/
def demoTwo : List RouteStop :=
  [mkDelivery 1 "A", mkDelivery 2 "B"]

/-! ## Lemmas: first-wins deduplication and sorting -/

/-- The uniqueStopsMap.has check as a predicate on the value list. -/
def hasKey (m : List RouteStop) (n : Int) : Bool :=
  m.any (fun u => u.originalStopNumber = n)

theorem insertUnique_eq (m : List RouteStop) (s : RouteStop) :
    insertUnique m s = if hasKey m s.originalStopNumber then m else m ++ [s] := rfl

theorem hasKey_iff {m : List RouteStop} {n : Int} :
    hasKey m n = true ↔ ∃ u ∈ m, u.originalStopNumber = n := by
  simp [hasKey]

theorem hasKey_append {m₁ m₂ : List RouteStop} {n : Int} :
    hasKey (m₁ ++ m₂) n = (hasKey m₁ n || hasKey m₂ n) := by
  simp [hasKey, List.any_append]

theorem insertUnique_of_hasKey {m : List RouteStop} {s : RouteStop}
    (h : hasKey m s.originalStopNumber = true) : insertUnique m s = m := by
  rw [insertUnique_eq, h, if_pos rfl]

theorem insertUnique_of_not_hasKey {m : List RouteStop} {s : RouteStop}
    (h : hasKey m s.originalStopNumber = false) : insertUnique m s = m ++ [s] := by
  rw [insertUnique_eq, h]
  simp

theorem mem_foldl_insertUnique (l : List RouteStop) :
    ∀ (acc : List RouteStop) (s : RouteStop),
      s ∈ l.foldl insertUnique acc ↔
        s ∈ acc ∨ (hasKey acc s.originalStopNumber = false ∧
          l.find? (fun t => t.originalStopNumber = s.originalStopNumber) = some s) := by
  induction l with
  | nil => intro acc s; simp
  | cons t rest ih =>
    intro acc s
    rw [List.foldl_cons, ih]
    by_cases ht : t.originalStopNumber = s.originalStopNumber
    · have hfind : (t :: rest).find?
          (fun u => u.originalStopNumber = s.originalStopNumber) = some t :=
        List.find?_cons_of_pos _ (by simp [ht])
      rw [hfind]
      by_cases hk : hasKey acc t.originalStopNumber = true
      · have hks : hasKey acc s.originalStopNumber = true := ht ▸ hk
        rw [insertUnique_of_hasKey (ht ▸ hk : hasKey acc t.originalStopNumber = true)]
        simp [hks]
      · have hk' : hasKey acc t.originalStopNumber = false := by simpa using hk
        have hks : hasKey acc s.originalStopNumber = false := ht ▸ hk'
        have hka : hasKey (acc ++ [t]) s.originalStopNumber = true := by
          rw [hasKey_append, hks, Bool.false_or, hasKey_iff]
          exact ⟨t, by simp, ht⟩
        rw [insertUnique_of_not_hasKey hk']
        simp only [hka, Bool.true_eq_false, false_and, or_false, List.mem_append,
          List.mem_singleton, hks, true_and, Option.some.injEq]
        constructor
        · rintro (hs | rfl)
          · exact Or.inl hs
          · exact Or.inr rfl
        · rintro (hs | rfl)
          · exact Or.inl hs
          · exact Or.inr rfl
    · have hfind : (t :: rest).find?
          (fun u => u.originalStopNumber = s.originalStopNumber) =
          rest.find? (fun u => u.originalStopNumber = s.originalStopNumber) :=
        List.find?_cons_of_neg _ (by simp [ht])
      rw [hfind]
      by_cases hk : hasKey acc t.originalStopNumber = true
      · rw [insertUnique_of_hasKey hk]
      · have hk' : hasKey acc t.originalStopNumber = false := by simpa using hk
        have hka : hasKey (acc ++ [t]) s.originalStopNumber =
            hasKey acc s.originalStopNumber := by
          rw [hasKey_append]
          have h1 : hasKey [t] s.originalStopNumber = false := by simp [hasKey, ht]
          rw [h1, Bool.or_false]
        rw [insertUnique_of_not_hasKey hk', hka]
        simp only [List.mem_append, List.mem_singleton]
        constructor
        · rintro ((hs | rfl) | h)
          · exact Or.inl hs
          · exact absurd rfl ht
          · exact Or.inr h
        · rintro (hs | h)
          · exact Or.inl (Or.inl hs)
          · exact Or.inr h

theorem mem_uniqueStops {s : RouteStop} {l : List RouteStop} :
    s ∈ uniqueStops l ↔
      l.find? (fun t => t.originalStopNumber = s.originalStopNumber) = some s := by
  rw [uniqueStops, mem_foldl_insertUnique]
  simp [hasKey]

theorem ids_nodup_foldl (l : List RouteStop) :
    ∀ acc : List RouteStop, (idsOf acc).Nodup → (idsOf (l.foldl insertUnique acc)).Nodup := by
  induction l with
  | nil => intro acc h; simpa using h
  | cons t rest ih =>
    intro acc h
    rw [List.foldl_cons]
    apply ih
    by_cases hk : hasKey acc t.originalStopNumber = true
    · rwa [insertUnique_of_hasKey hk]
    · have hk' : hasKey acc t.originalStopNumber = false := by simpa using hk
      have hnot : t.originalStopNumber ∉ idsOf acc := by
        intro hmem
        apply hk
        rw [hasKey_iff]
        obtain ⟨u, hu, hun⟩ := List.mem_map.mp hmem
        exact ⟨u, hu, hun⟩
      rw [insertUnique_of_not_hasKey hk']
      have hids : idsOf (acc ++ [t]) = idsOf acc ++ [t.originalStopNumber] := by
        simp [idsOf]
      rw [hids, List.nodup_append]
      exact ⟨h, List.nodup_singleton _,
        fun a ha hb => hnot ((List.mem_singleton.mp hb) ▸ ha)⟩

theorem ids_uniqueStops_nodup (l : List RouteStop) : (idsOf (uniqueStops l)).Nodup :=
  ids_nodup_foldl l [] (by simp [idsOf])

theorem mem_sortByStopNumber {s : RouteStop} {l : List RouteStop} :
    s ∈ sortByStopNumber l ↔ s ∈ l :=
  (List.perm_insertionSort stopNumLe l).mem_iff

theorem sortByStopNumber_sorted (l : List RouteStop) :
    (sortByStopNumber l).Pairwise stopNumLe :=
  List.sorted_insertionSort stopNumLe l

theorem originalStopNumber_markDelivery (s : RouteStop) :
    (markDelivery s).originalStopNumber = s.originalStopNumber := rfl

theorem idsOf_map_markDelivery (l : List RouteStop) :
    idsOf (l.map markDelivery) = idsOf l := by
  simp [idsOf, markDelivery, Function.comp]

/-- C1: for every sequence of per-screenshot extraction batches, the
merger keeps for each originalStopNumber only the first occurrence in
flattened arrival order (the kept stop is the find? result over the
flattened list, retagged as delivery, with no field merging), drops and
adds no stop numbers, and outputs the kept stops sorted strictly
ascending by originalStopNumber. -/
theorem merger_first_wins_sorted (results : List ExtractResult) :
    (∀ s ∈ mergedStops results,
      ∃ u, ((results.map ExtractResult.stops).flatten).find?
          (fun t => t.originalStopNumber = s.originalStopNumber) = some u ∧
        s = markDelivery u) ∧
    (∀ n : Int,
      (∃ t ∈ (results.map ExtractResult.stops).flatten, t.originalStopNumber = n) ↔
        ∃ s ∈ mergedStops results, s.originalStopNumber = n) ∧
    (mergedStops results).Pairwise
      (fun a b => a.originalStopNumber < b.originalStopNumber) := by
  set flat := (results.map ExtractResult.stops).flatten with hflat
  have hmem : ∀ s : RouteStop, s ∈ mergedStops results ↔
      ∃ u ∈ uniqueStops flat, s = markDelivery u := by
    intro s
    rw [mergedStops, mem_sortByStopNumber]
    constructor
    · intro hs
      obtain ⟨u, hu, rfl⟩ := List.mem_map.mp hs
      exact ⟨u, hu, rfl⟩
    · rintro ⟨u, hu, rfl⟩
      exact List.mem_map.mpr ⟨u, hu, rfl⟩
  refine ⟨?_, ?_, ?_⟩
  · intro s hs
    obtain ⟨u, hu, rfl⟩ := (hmem s).mp hs
    refine ⟨u, ?_, rfl⟩
    rw [originalStopNumber_markDelivery]
    exact mem_uniqueStops.mp hu
  · intro n
    constructor
    · rintro ⟨t, ht, rfl⟩
      have hsome : (flat.find? (fun u => u.originalStopNumber = t.originalStopNumber)).isSome := by
        rw [List.find?_isSome]
        exact ⟨t, ht, by simp⟩
      obtain ⟨u, hu⟩ := Option.isSome_iff_exists.mp hsome
      have hun : u.originalStopNumber = t.originalStopNumber := by
        simpa using List.find?_some hu
      have humem : u ∈ uniqueStops flat := by
        rw [mem_uniqueStops, hun]
        exact hu
      exact ⟨markDelivery u, (hmem _).mpr ⟨u, humem, rfl⟩, hun⟩
    · rintro ⟨s, hs, rfl⟩
      obtain ⟨u, hu, rfl⟩ := (hmem s).mp hs
      have humem := mem_uniqueStops.mp hu
      exact ⟨u, List.mem_of_find?_eq_some humem, rfl⟩
  · have hle := sortByStopNumber_sorted ((uniqueStops flat).map markDelivery)
    have hnodup : (idsOf (mergedStops results)).Nodup := by
      have h1 : (idsOf ((uniqueStops flat).map markDelivery)).Nodup := by
        rw [idsOf_map_markDelivery]
        exact ids_uniqueStops_nodup flat
      have hperm : List.Perm (idsOf (mergedStops results))
          (idsOf ((uniqueStops flat).map markDelivery)) :=
        (List.perm_insertionSort stopNumLe _).map RouteStop.originalStopNumber
      exact hperm.nodup_iff.mpr h1
    have hne : (mergedStops results).Pairwise
        (fun a b => a.originalStopNumber ≠ b.originalStopNumber) := by
      have := hnodup
      rw [idsOf, List.Nodup, List.pairwise_map] at this
      exact this
    exact (hle.and hne).imp (fun h => lt_of_le_of_ne h.1 h.2)

/-- Witness for C1 at the overlapping demoBatches: the merged output keeps
stop 1 as its first (B St) occurrence. -/
theorem merger_first_wins_sorted_witness :
    ∃ u, ((demoBatches.map ExtractResult.stops).flatten).find?
        (fun t => t.originalStopNumber =
          (markDelivery (mkStop 1 "B St")).originalStopNumber) = some u ∧
      markDelivery (mkStop 1 "B St") = markDelivery u :=
  (merger_first_wins_sorted demoBatches).1 (markDelivery (mkStop 1 "B St")) (by decide)

/-! ## Lemmas: current-stop recompute -/

theorem updateStops_found_true (l : List RouteStop) :
    updateStops true l = l.map (fun s => setCurrent s false) := by
  induction l with
  | nil => rfl
  | cons s rest ih =>
    by_cases h : (isLocationStop s || isCompleted s) = true
    · simp [updateStops, h, ih]
    · simp [updateStops, h, ih]

theorem eligible_iff_branch (s : RouteStop) :
    eligible s = true ↔ (isLocationStop s || isCompleted s) = false := by
  unfold eligible
  cases h : (isLocationStop s || isCompleted s) <;> simp

theorem not_eligible_iff (s : RouteStop) :
    eligible s = false ↔ (isLocationStop s || isCompleted s) = true := by
  unfold eligible
  cases h : (isLocationStop s || isCompleted s) <;> simp

theorem updateCurrent_of_no_eligible (l : List RouteStop)
    (h : ∀ s ∈ l, eligible s = false) :
    updateCurrent l = l.map (fun s => setCurrent s false) := by
  induction l with
  | nil => rfl
  | cons s rest ih =>
    have hs : eligible s = false := h s (List.mem_cons_self s rest)
    have hb : (isLocationStop s || isCompleted s) = true :=
      (not_eligible_iff s).mp hs
    have hrest : updateCurrent rest = rest.map (fun t => setCurrent t false) :=
      ih (fun t ht => h t (List.mem_cons_of_mem s ht))
    simp [updateCurrent, updateStops, hb]
    exact hrest

theorem updateCurrent_split (l₁ : List RouteStop) (s : RouteStop) (l₂ : List RouteStop)
    (h1 : ∀ t ∈ l₁, eligible t = false) (hs : eligible s = true) :
    updateCurrent (l₁ ++ s :: l₂) =
      l₁.map (fun t => setCurrent t false) ++
        setCurrent s true :: l₂.map (fun t => setCurrent t false) := by
  induction l₁ with
  | nil =>
    have hb : (isLocationStop s || isCompleted s) = false :=
      (eligible_iff_branch s).mp hs
    simp only [List.nil_append, List.map_nil, updateCurrent, updateStops, hb]
    simp [updateStops_found_true]
  | cons t l₁ ih =>
    have ht : eligible t = false := h1 t (List.mem_cons_self t l₁)
    have hb : (isLocationStop t || isCompleted t) = true :=
      (not_eligible_iff t).mp ht
    have hrest := ih (fun u hu => h1 u (List.mem_cons_of_mem t hu))
    simp only [List.cons_append, List.map_cons, updateCurrent, updateStops, hb, if_pos]
    rw [updateCurrent] at hrest
    simp [hrest]

theorem countP_current_updateStops_true (l : List RouteStop) :
    (updateStops true l).countP (fun s => s.isCurrentStop = some true) = 0 := by
  rw [updateStops_found_true]
  induction l with
  | nil => rfl
  | cons s rest ih =>
    rw [List.map_cons, List.countP_cons]
    simp [setCurrent, ih]

theorem countP_current_updateCurrent_le_one (l : List RouteStop) :
    (updateCurrent l).countP (fun s => s.isCurrentStop = some true) ≤ 1 := by
  induction l with
  | nil => simp [updateCurrent, updateStops]
  | cons s rest ih =>
    by_cases hb : (isLocationStop s || isCompleted s) = true
    · have : updateCurrent (s :: rest) = setCurrent s false :: updateCurrent rest := by
        simp [updateCurrent, updateStops, hb]
      rw [this]
      simpa [List.countP_cons, setCurrent] using ih
    · have hb' : (isLocationStop s || isCompleted s) = false := by simpa using hb
      have : updateCurrent (s :: rest) = setCurrent s true :: updateStops true rest := by
        simp [updateCurrent, updateStops, hb']
      rw [this]
      simp [List.countP_cons, setCurrent, countP_current_updateStops_true]

/-- C2: after the recompute that runs on every route mutation, the first
stop in list order that is a non-location stop with status pending or
absent carries isCurrentStop = true and every other stop (location stop,
resolved stops, later pending stops) carries isCurrentStop = false; when
no such stop exists every flag is false; at most one flag is ever true.
Eligibility is exactly: kind not location, and status pending or absent. -/
theorem currentStop_recompute_spec (l : List RouteStop) :
    (∀ s : RouteStop, eligible s = true ↔
      (s.type ≠ some StopKind.location ∧
        (s.status = none ∨ s.status = some StopStatus.pending))) ∧
    ((∀ s ∈ l, eligible s = false) →
      updateCurrent l = l.map (fun s => setCurrent s false)) ∧
    (∀ l₁ s l₂, l = l₁ ++ s :: l₂ →
      (∀ t ∈ l₁, eligible t = false) → eligible s = true →
      updateCurrent l = l₁.map (fun t => setCurrent t false) ++
        setCurrent s true :: l₂.map (fun t => setCurrent t false)) ∧
    (updateCurrent l).countP (fun s => s.isCurrentStop = some true) ≤ 1 := by
  refine ⟨?_, updateCurrent_of_no_eligible l, ?_, countP_current_updateCurrent_le_one l⟩
  · intro s
    unfold eligible isLocationStop isCompleted
    cases hty : s.type with
    | none =>
      cases hst : s.status with
      | none => simp
      | some st => cases st <;> simp
    | some k =>
      cases k with
      | delivery =>
        cases hst : s.status with
        | none => simp
        | some st => cases st <;> simp
      | location => simp
  · intro l₁ s l₂ hl h1 hs
    rw [hl]
    exact updateCurrent_split l₁ s l₂ h1 hs

/-- Witness for C2: on a route with location head, a delivered stop and
two pending stops, exactly the first pending stop gets the flag. -/
theorem currentStop_recompute_spec_witness :
    updateCurrent demoStatusRoute =
      [demoLocation, mkDone 1 "D1"].map (fun t => setCurrent t false) ++
        setCurrent (mkDelivery 2 "P2") true ::
          [mkDelivery 3 "P3"].map (fun t => setCurrent t false) :=
  (currentStop_recompute_spec demoStatusRoute).2.2.1
    [demoLocation, mkDone 1 "D1"] (mkDelivery 2 "P2") [mkDelivery 3 "P3"]
    (by decide) (by decide) (by decide)

/-! ## Lemmas: route mutations and the location head -/

theorem mem_jsInsert {s x : α} {k : Nat} {l : List α} :
    s ∈ jsInsert k x l ↔ s = x ∨ s ∈ l := by
  have hsplit : s ∈ l ↔ s ∈ l.take k ∨ s ∈ l.drop k := by
    conv_lhs => rw [← List.take_append_drop k l]
    exact List.mem_append
  unfold jsInsert
  rw [List.mem_append, List.mem_cons, hsplit]
  tauto

theorem mem_of_mem_eraseIdx {s : α} {l : List α} {i : Nat}
    (h : s ∈ l.eraseIdx i) : s ∈ l := by
  rw [List.eraseIdx_eq_take_drop_succ] at h
  rcases List.mem_append.mp h with h | h
  · exact List.take_subset i l h
  · exact List.drop_subset (i + 1) l h

theorem deliveries_not_location {route : List RouteStop} :
    ∀ s ∈ deliveries route, isLocationStop s = false := by
  intro s hs
  have := List.of_mem_filter hs
  simpa using this

theorem isLocationStop_setField (s : RouteStop) (f : EditField) (v : String) :
    isLocationStop (setField s f v) = isLocationStop s := by
  cases f <;> rfl

theorem location_head_of_wellFormed {route : List RouteStop} {l : RouteStop}
    (hwf : WellFormed route) (hl : findLocationStop route = some l) :
    l :: deliveries route = route := by
  conv_rhs => rw [← hwf]
  unfold withLocationHead
  rw [hl]

theorem mutDeliveries_not_location (op : MutOp) {ds ds' : List RouteStop}
    (hds : ∀ s ∈ ds, isLocationStop s = false)
    (h : mutDeliveries op ds = some ds') :
    ∀ s ∈ ds', isLocationStop s = false := by
  cases op with
  | drop dragIdx dropIdx =>
    by_cases hft : dragIdx = dropIdx
    · simp only [mutDeliveries, hft, if_pos] at h
      rw [← Option.some.inj h]
      exact hds
    · simp only [mutDeliveries, hft, if_false] at h
      obtain ⟨removed, hget, rfl⟩ := Option.map_eq_some'.mp (by simpa [hft] using h)
      intro s hs
      rcases mem_jsInsert.mp hs with rfl | hs
      · exact hds s (List.getElem?_mem hget)
      · exact hds s (mem_of_mem_eraseIdx hs)
  | move index up =>
    by_cases hg : ((if up then (index : Int) - 1 else (index : Int) + 1) < 0 ∨
        (ds.length : Int) ≤ (if up then (index : Int) - 1 else (index : Int) + 1))
    · simp only [mutDeliveries, if_pos hg] at h
      rw [← Option.some.inj h]
      exact hds
    · simp only [mutDeliveries, if_neg hg] at h
      obtain ⟨item, hget, rfl⟩ := Option.map_eq_some'.mp h
      intro s hs
      rcases mem_jsInsert.mp hs with rfl | hs
      · exact hds s (List.get?_mem hget)
      · exact hds s (mem_of_mem_eraseIdx hs)
  | deleteAt index =>
    rw [mutDeliveries] at h
    rw [← Option.some.inj h]
    intro s hs
    obtain ⟨p, hp, rfl⟩ := List.mem_map.mp hs
    have hpe : p ∈ ds.enum := (List.mem_filter.mp hp).1
    obtain ⟨i, x⟩ := p
    obtain ⟨hi, hx⟩ := List.mem_enum hpe
    exact hds x (hx ▸ List.getElem_mem hi)
  | resetOrder =>
    rw [mutDeliveries] at h
    rw [← Option.some.inj h]
    intro s hs
    exact hds s (mem_sortByStopNumber.mp hs)
  | fieldChange index f v =>
    rw [mutDeliveries] at h
    obtain ⟨s0, hget, rfl⟩ := Option.map_eq_some'.mp h
    intro s hs
    rcases List.mem_or_eq_of_mem_set hs with hs | rfl
    · exact hds s hs
    · rw [isLocationStop_setField]
      exact hds s0 (List.get?_mem hget)

theorem applyMut_shape (op : MutOp) (route out : List RouteStop)
    (hout : applyMut op route = some out) :
    ∃ ds', mutDeliveries op (deliveries route) = some ds' ∧
      (out = withLocationHead route ds' ∨
        (out = route ∧ ds' = deliveries route)) := by
  cases op with
  | drop dragIdx dropIdx =>
    by_cases hft : dragIdx = dropIdx
    · refine ⟨deliveries route, by simp [mutDeliveries, hft], Or.inr ⟨?_, rfl⟩⟩
      simp only [applyMut, hft, if_pos] at hout
      exact (Option.some.inj hout).symm
    · simp only [applyMut, hft, if_false] at hout
      obtain ⟨ds', h1, h2⟩ := Option.map_eq_some'.mp (by simpa [hft] using hout)
      exact ⟨ds', h1, Or.inl h2.symm⟩
  | move index up =>
    by_cases hg : ((if up then (index : Int) - 1 else (index : Int) + 1) < 0 ∨
        ((deliveries route).length : Int) ≤
          (if up then (index : Int) - 1 else (index : Int) + 1))
    · refine ⟨deliveries route, by simp only [mutDeliveries, if_pos hg], Or.inr ⟨?_, rfl⟩⟩
      simp only [applyMut, if_pos hg] at hout
      exact (Option.some.inj hout).symm
    · simp only [applyMut, if_neg hg] at hout
      obtain ⟨ds', h1, h2⟩ := Option.map_eq_some'.mp hout
      exact ⟨ds', h1, Or.inl h2.symm⟩
  | deleteAt index =>
    simp only [applyMut] at hout
    obtain ⟨ds', h1, h2⟩ := Option.map_eq_some'.mp hout
    exact ⟨ds', h1, Or.inl h2.symm⟩
  | resetOrder =>
    simp only [applyMut] at hout
    obtain ⟨ds', h1, h2⟩ := Option.map_eq_some'.mp hout
    exact ⟨ds', h1, Or.inl h2.symm⟩
  | fieldChange index f v =>
    simp only [applyMut] at hout
    obtain ⟨ds', h1, h2⟩ := Option.map_eq_some'.mp hout
    exact ⟨ds', h1, Or.inl h2.symm⟩

/-- C3: for every well-formed route holding a Location stop, every
mutation of RouteDisplay.tsx (drag-drop, move up/down, delete, reset
order, field edit) that completes leaves the Location stop at index 0,
and the rest of the result is exactly the delivery-level transformation
of the Delivery sub-sequence, which contains no location stop. -/
theorem locationHead_invariant (op : MutOp) (route : List RouteStop)
    (l : RouteStop) (out : List RouteStop)
    (hwf : WellFormed route) (hl : findLocationStop route = some l)
    (hout : applyMut op route = some out) :
    out.head? = some l ∧ l.type = some StopKind.location ∧
      mutDeliveries op (deliveries route) = some out.tail ∧
      ∀ s ∈ out.tail, isLocationStop s = false := by
  have hroute : l :: deliveries route = route := location_head_of_wellFormed hwf hl
  have hltype : l.type = some StopKind.location := by
    have h1 : isLocationStop l = true := List.find?_some hl
    unfold isLocationStop at h1
    exact of_decide_eq_true h1
  obtain ⟨ds', h1, h2⟩ := applyMut_shape op route out hout
  have hcons : out = l :: ds' := by
    rcases h2 with h2 | ⟨h2, h3⟩
    · rw [h2]
      unfold withLocationHead
      rw [hl]
    · rw [h2, ← hroute, h3]
  subst hcons
  refine ⟨rfl, hltype, h1, ?_⟩
  exact mutDeliveries_not_location op deliveries_not_location h1

/-- Witness for C3 at demoRoute3: moving the third delivery stop up keeps
the location stop at the head. -/
theorem locationHead_invariant_witness :
    demoMoved.head? = some demoLocation ∧
      demoLocation.type = some StopKind.location :=
  ⟨(locationHead_invariant (MutOp.move 2 true) demoRoute3 demoLocation demoMoved
      (by unfold WellFormed; decide) (by decide) (by decide)).1,
   (locationHead_invariant (MutOp.move 2 true) demoRoute3 demoLocation demoMoved
      (by unfold WellFormed; decide) (by decide) (by decide)).2.1⟩

/-! ## Lemmas: link chunking -/

theorem numChunks_zero (limit : Nat) (hl : 0 < limit) : numChunks limit 0 = 0 := by
  unfold numChunks
  exact Nat.div_eq_of_lt (by omega)

theorem numChunks_succ (limit n : Nat) (hl : 0 < limit) (hn : 0 < n) :
    numChunks limit n = (n - 1) / limit + 1 := by
  unfold numChunks
  have h : n + limit - 1 = (n - 1) + limit := by omega
  rw [h, Nat.add_div_right _ hl]

theorem chunkAt_zero (limit : Nat) (ds : List RouteStop) :
    chunkAt limit ds 0 = ds.take limit := by
  unfold chunkAt
  simp

theorem chunkAt_succ (limit : Nat) (ds : List RouteStop) (k : Nat) :
    chunkAt limit ds (k + 1) = chunkAt limit (ds.drop limit) k := by
  unfold chunkAt
  rw [List.drop_drop]
  have h : (k + 1) * limit = limit + k * limit := by ring
  rw [h]

theorem chunks_flatten_aux (limit : Nat) (hl : 0 < limit) :
    ∀ n (ds : List RouteStop), ds.length = n →
      ((List.range (numChunks limit ds.length)).map (chunkAt limit ds)).flatten = ds := by
  intro n
  induction n using Nat.strong_induction_on with
  | _ n ih =>
    intro ds hlen
    by_cases h0 : ds.length = 0
    · have hds : ds = [] := List.length_eq_zero.mp h0
      subst hds
      simp [numChunks_zero limit hl]
    · have hn : 0 < ds.length := Nat.pos_of_ne_zero h0
      rw [numChunks_succ limit ds.length hl hn, List.range_succ_eq_map, List.map_cons,
        List.flatten_cons, chunkAt_zero, List.map_map]
      have hcomp : (chunkAt limit ds ∘ Nat.succ) = chunkAt limit (ds.drop limit) := by
        funext k
        exact chunkAt_succ limit ds k
      rw [hcomp]
      by_cases hle : ds.length ≤ limit
      · have hq : (ds.length - 1) / limit = 0 := Nat.div_eq_of_lt (by omega)
        rw [hq]
        simp [List.take_of_length_le hle]
      · have hlt : limit < ds.length := Nat.lt_of_not_le hle
        have hdrop : (ds.drop limit).length = ds.length - limit := List.length_drop limit ds
        have hq : (ds.length - 1) / limit = numChunks limit (ds.drop limit).length := by
          rw [hdrop, numChunks_succ limit (ds.length - limit) hl (by omega)]
          have h1 : ds.length - 1 = (ds.length - limit - 1) + limit := by omega
          rw [h1, Nat.add_div_right _ hl]
        rw [hq, ih (ds.drop limit).length (by omega) (ds.drop limit) rfl]
        exact List.take_append_drop limit ds

theorem chunks_flatten (limit : Nat) (hl : 0 < limit) (ds : List RouteStop) :
    ((List.range (numChunks limit ds.length)).map (chunkAt limit ds)).flatten = ds :=
  chunks_flatten_aux limit hl ds.length ds rfl

theorem chunkLinks_getElem? (limit : Nat) (mkUrl : List RouteStop → String)
    (ds : List RouteStop) (k : Nat) (hk : k < numChunks limit ds.length) :
    (chunkLinks limit mkUrl ds)[k]? =
      some { label := chunkLabel limit ds k, url := mkUrl (chunkAt limit ds k) } := by
  unfold chunkLinks
  rw [List.getElem?_map, List.getElem?_range hk]
  rfl

/-- C4: with waypoint limit L and N delivery stops, the generator yields
no link for N = 0, exactly one link for 1 <= N <= L, and for N > L it
yields ceil(N / L) links (characterised both by the closed form and by
the bounds L * (count - 1) < N <= L * count) whose chunks are contiguous,
ordered, non-overlapping and cover the delivery list exactly, each link
labelled with the 1-based stop range of its chunk. -/
theorem link_chunking_boundary (limit : Nat) (hl : 0 < limit)
    (stops : List RouteStop) :
    ((deliveries stops).length = 0 → generateGoogleMapsLinksWith limit stops = []) ∧
    (1 ≤ (deliveries stops).length → (deliveries stops).length ≤ limit →
      (generateGoogleMapsLinksWith limit stops).length = 1) ∧
    (limit < (deliveries stops).length →
      (generateGoogleMapsLinksWith limit stops).length =
          numChunks limit (deliveries stops).length ∧
        limit * ((generateGoogleMapsLinksWith limit stops).length - 1) <
          (deliveries stops).length ∧
        (deliveries stops).length ≤
          limit * (generateGoogleMapsLinksWith limit stops).length ∧
        ((List.range (numChunks limit (deliveries stops).length)).map
          (chunkAt limit (deliveries stops))).flatten = deliveries stops ∧
        ∀ k, k < numChunks limit (deliveries stops).length →
          (generateGoogleMapsLinksWith limit stops)[k]? =
            some { label := chunkLabel limit (deliveries stops) k
                   url := createUrl (chunkAt limit (deliveries stops) k) }) := by
  refine ⟨?_, ?_, ?_⟩
  · intro h
    unfold generateGoogleMapsLinksWith
    simp [h]
  · intro h1 h2
    unfold generateGoogleMapsLinksWith
    simp only [if_neg (by omega : ¬ (deliveries stops).length = 0), if_pos h2]
    rfl
  · intro hlt
    have hgen : generateGoogleMapsLinksWith limit stops =
        chunkLinks limit createUrl (deliveries stops) := by
      unfold generateGoogleMapsLinksWith
      rw [if_neg (by omega : ¬ (deliveries stops).length = 0),
        if_neg (by omega : ¬ (deliveries stops).length ≤ limit)]
    have hlen : (generateGoogleMapsLinksWith limit stops).length =
        numChunks limit (deliveries stops).length := by
      rw [hgen]
      unfold chunkLinks
      simp
    refine ⟨hlen, ?_, ?_, chunks_flatten limit hl (deliveries stops), ?_⟩
    · rw [hlen, numChunks_succ limit _ hl (by omega), Nat.add_sub_cancel]
      have hdm := Nat.div_add_mod ((deliveries stops).length - 1) limit
      omega
    · rw [hlen, numChunks_succ limit _ hl (by omega), Nat.mul_succ]
      have hdm := Nat.div_add_mod ((deliveries stops).length - 1) limit
      have hmod := Nat.mod_lt ((deliveries stops).length - 1) hl
      omega
    · intro k hk
      rw [hgen]
      exact chunkLinks_getElem? limit createUrl (deliveries stops) k hk

/-- Witness for C4 at the concrete case of the claim: limit 10 and 25
delivery stops give 3 links. -/
theorem link_chunking_boundary_witness :
    (0 < 10 ∧ 10 < (deliveries demoStops25).length) ∧
      (generateGoogleMapsLinksWith 10 demoStops25).length = 3 := by
  refine ⟨⟨by decide, by decide⟩, ?_⟩
  have h := ((link_chunking_boundary 10 (by decide) demoStops25).2.2 (by decide)).1
  exact h.trans (by decide)

/-! ## Lemmas: single and directions links -/

theorem headI_map (f : RouteStop → String) {l : List RouteStop} (h : l ≠ []) :
    (l.map f).headI = f l.headI := by
  cases l with
  | nil => exact absurd rfl h
  | cons a t => rfl

theorem getLastI_map (f : RouteStop → String) {l : List RouteStop} (h : l ≠ []) :
    (l.map f).getLastI = f l.getLastI := by
  rw [List.getLastI_eq_getLast?, List.getLastI_eq_getLast?, List.getLast?_map]
  cases hg : l.getLast? with
  | none =>
    exact absurd (List.getLast?_eq_none_iff.mp hg) h
  | some a => rfl

theorem dirUrl_eq (ds : List RouteStop) (h : ds ≠ []) :
    dirUrl ds = "https://www.google.com/maps/dir/?api=1&origin=" ++
      encodeURIComponent (addressOf ds.headI) ++ "&destination=" ++
      encodeURIComponent (addressOf ds.getLastI) ++ "&waypoints=" ++
      String.intercalate "|" (((ds.drop 1).dropLast).map
        (fun s => encodeURIComponent (addressOf s))) := by
  unfold dirUrl
  dsimp only
  rw [headI_map _ h, getLastI_map _ h, ← List.map_drop, List.map_dropLast]

/-- C5: the link generator excludes the Location stop (it reads exactly
the filtered delivery list); one delivery stop yields a single
search-style link for that address; 2..limit delivery stops yield a
single directions link with the first stop as origin, the last as
destination, and the stops between as waypoints, in route order, every
address passed through the URI-component encoder. -/
theorem link_single_and_directions (limit : Nat) (stops : List RouteStop)
    (hl : 0 < limit) :
    (deliveries stops = stops.filter (fun s => !isLocationStop s)) ∧
    ((deliveries stops).length ≤ 20 →
      generateGoogleMapsLinksWeb stops = generateGoogleMapsLinksWith 20 stops) ∧
    ((deliveries stops).length = 1 →
      generateGoogleMapsLinksWith limit stops =
        [{ label := "Open in Google Maps"
           url := searchUrl (deliveries stops).headI }]) ∧
    (2 ≤ (deliveries stops).length → (deliveries stops).length ≤ limit →
      generateGoogleMapsLinksWith limit stops =
        [{ label := "Open in Google Maps"
           url := "https://www.google.com/maps/dir/?api=1&origin=" ++
             encodeURIComponent (addressOf (deliveries stops).headI) ++
             "&destination=" ++
             encodeURIComponent (addressOf (deliveries stops).getLastI) ++
             "&waypoints=" ++
             String.intercalate "|" ((((deliveries stops).drop 1).dropLast).map
               (fun s => encodeURIComponent (addressOf s))) }]) := by
  refine ⟨rfl, ?_, ?_, ?_⟩
  · intro hle
    unfold generateGoogleMapsLinksWeb generateGoogleMapsLinksWith
    by_cases h0 : (deliveries stops).length = 0
    · simp [h0]
    · rw [if_neg h0, if_neg h0, if_pos hle, if_pos hle]
      by_cases h1 : (deliveries stops).length = 1
      · rw [if_pos h1]
        unfold createUrl
        rw [if_pos h1]
      · rw [if_neg h1]
        unfold createUrl
        rw [if_neg h1]
  · intro h1
    unfold generateGoogleMapsLinksWith
    rw [if_neg (by omega : ¬ (deliveries stops).length = 0),
      if_pos (by omega : (deliveries stops).length ≤ limit)]
    unfold createUrl
    rw [if_pos h1]
  · intro h2 hle
    unfold generateGoogleMapsLinksWith
    rw [if_neg (by omega : ¬ (deliveries stops).length = 0), if_pos hle]
    unfold createUrl
    rw [if_neg (by omega : ¬ (deliveries stops).length = 1)]
    rw [dirUrl_eq (deliveries stops)
      (by intro hnil; rw [hnil] at h2; simp at h2)]

/-- Witness for C5: three delivery stops behind a location head produce
one directions link in route order. -/
theorem link_single_and_directions_witness :
    generateGoogleMapsLinksWith 20 demoRoute3 =
      [{ label := "Open in Google Maps"
         url := "https://www.google.com/maps/dir/?api=1&origin=" ++
           encodeURIComponent (addressOf (deliveries demoRoute3).headI) ++
           "&destination=" ++
           encodeURIComponent (addressOf (deliveries demoRoute3).getLastI) ++
           "&waypoints=" ++
           String.intercalate "|" ((((deliveries demoRoute3).drop 1).dropLast).map
             (fun s => encodeURIComponent (addressOf s))) }] :=
  (link_single_and_directions 20 demoRoute3 (by decide)).2.2.2 (by decide) (by decide)

/-! ## Optimization failure handling (C6) and frame effect (C10) -/

/-- C6 counterexample: a returned stop set missing one input identity is
not rejected — it is applied as the new route (and no error is set), so
the route does not stay as it was. -/
theorem optimization_mismatch_applied :
    (performOptimization (some demoTwo) none
        (Except.ok [mkDelivery 1 "A"])).route ≠ some demoTwo ∧
      (performOptimization (some demoTwo) none
        (Except.ok [mkDelivery 1 "A"])).error = none ∧
      idsOf [mkDelivery 1 "A"] ≠ idsOf (deliveries demoTwo) := by
  decide

/-- C6 amended: when the optimize call itself fails the error is surfaced
and the route is left exactly as it was; a successful reply is applied
as-is (after the current-stop recompute), with no identity validation. -/
theorem optimization_error_leaves_route (route : Option (List RouteStop))
    (location : Option (Int × Int)) (e : String) (optimized : List RouteStop) :
    performOptimization route location (Except.error e) =
        { route := route, error := some e } ∧
      performOptimization route none (Except.ok optimized) =
        { route := some (updateCurrent optimized), error := none } :=
  ⟨rfl, rfl⟩

theorem mem_updateStops {found : Bool} {l : List RouteStop} {s : RouteStop}
    (h : s ∈ updateStops found l) : ∃ t ∈ l, ∃ b : Bool, s = setCurrent t b := by
  induction l generalizing found with
  | nil => simp [updateStops] at h
  | cons t rest ih =>
    rw [updateStops] at h
    by_cases hb : (isLocationStop t || isCompleted t) = true
    · rw [if_pos hb] at h
      rcases List.mem_cons.mp h with rfl | h
      · exact ⟨t, List.mem_cons_self t rest, false, rfl⟩
      · obtain ⟨u, hu, b, rfl⟩ := ih h
        exact ⟨u, List.mem_cons_of_mem t hu, b, rfl⟩
    · rw [if_neg hb] at h
      by_cases hf : (!found) = true
      · rw [if_pos hf] at h
        rcases List.mem_cons.mp h with rfl | h
        · exact ⟨t, List.mem_cons_self t rest, true, rfl⟩
        · obtain ⟨u, hu, b, rfl⟩ := ih h
          exact ⟨u, List.mem_cons_of_mem t hu, b, rfl⟩
      · rw [if_neg hf] at h
        rcases List.mem_cons.mp h with rfl | h
        · exact ⟨t, List.mem_cons_self t rest, false, rfl⟩
        · obtain ⟨u, hu, b, rfl⟩ := ih h
          exact ⟨u, List.mem_cons_of_mem t hu, b, rfl⟩

/-- C10: running the optimization without the start-from-my-location
option replaces the whole route by the recomputed returned delivery
stops, so a previously present Location stop is no longer in the route
even though no delete operation ran. -/
theorem optimize_without_location_drops_location_stop
    (route optimized : List RouteStop)
    (_hloc : ∃ s ∈ route, isLocationStop s = true)
    (hopt : ∀ s ∈ optimized, isLocationStop s = false) :
    (performOptimization (some route) none (Except.ok optimized)).route =
        some (updateCurrent optimized) ∧
      (∀ s ∈ updateCurrent optimized, isLocationStop s = false) ∧
      ∀ l ∈ route, isLocationStop l = true → l ∉ updateCurrent optimized := by
  have hall : ∀ s ∈ updateCurrent optimized, isLocationStop s = false := by
    intro s hs
    obtain ⟨t, ht, b, rfl⟩ := mem_updateStops hs
    exact hopt t ht
  refine ⟨rfl, hall, ?_⟩
  intro l _ hltrue hmem
  have hfalse := hall l hmem
  rw [hltrue] at hfalse
  exact Bool.true_eq_false.mp hfalse

/-- Witness for C10: optimizing demoRoute3 (location head present)
without a start location yields a route built only from the returned
delivery stops. -/
theorem optimize_without_location_drops_location_stop_witness :
    (performOptimization (some demoRoute3) none
        (Except.ok [mkDelivery 2 "B", mkDelivery 1 "A"])).route =
      some (updateCurrent [mkDelivery 2 "B", mkDelivery 1 "A"]) :=
  (optimize_without_location_drops_location_stop demoRoute3
    [mkDelivery 2 "B", mkDelivery 1 "A"] (by decide) (by decide)).1

/-! ## Mutation totality (C7) -/

/-- C7: the index-based field edit of RouteDisplay.tsx is not total — on
an out-of-range index it dereferences undefined (a TypeError, modelled
none) instead of leaving the route unchanged; the mobile variant keyed
by originalStopNumber is a genuine no-op on an unknown number. -/
theorem field_edit_out_of_range_throws :
    applyMut (MutOp.fieldChange 3 EditField.label "note") [mkDelivery 1 "A"] = none ∧
      handleFieldChangeMobile 99 EditField.label "note" [mkDelivery 1 "A"] =
        [mkDelivery 1 "A"] := by
  decide

/-! ## Processing failure and free-tier gating (C8, C9) -/

/-- C8: when the merged, deduplicated result set over all screenshots is
empty, handleProcessRoute reports the could-not-extract error and ends
with a null route (never an empty route). -/
theorem empty_merge_reports_failure (st : ProcessState) (rs : List ExtractResult)
    (h0 : st.screenshotCount ≠ 0)
    (h1 : ¬(st.tier = Tier.free ∧ 5 ≤ st.routeCount))
    (h2 : mergedStops rs = []) :
    handleProcessRoute st (Except.ok rs) =
      { route := none, error := some noAddressesMessage, subModalOpen := false
        routeCount := st.routeCount, extractionCalled := true } := by
  unfold handleProcessRoute
  rw [if_neg h0, if_neg h1]
  dsimp only
  rw [h2]
  rfl

/-- Witness for C8: a single screenshot whose extraction yields no stops
ends with a null route and the extraction-failure error. -/
theorem empty_merge_reports_failure_witness :
    handleProcessRoute
        { screenshotCount := 1, tier := Tier.pro, routeCount := 0
          route := some [mkDelivery 1 "A"] }
        (Except.ok [{ stops := [], routeBlockCode := none }]) =
      { route := none, error := some noAddressesMessage, subModalOpen := false
        routeCount := 0, extractionCalled := true } :=
  empty_merge_reports_failure _ _ (by decide) (by decide) (by decide)

/-- C9: a Free-tier user at the limit of 5 processed routes gets the
free-limit error and the subscription modal, no extraction call runs and
the route and counter are untouched; a successful Free-tier processing
increments the persisted counter by one. -/
theorem free_tier_gate :
    (∀ (st : ProcessState) (results : Except String (List ExtractResult)),
      st.tier = Tier.free → 5 ≤ st.routeCount → st.screenshotCount ≠ 0 →
      handleProcessRoute st results =
        { route := st.route, error := some freeLimitMessage, subModalOpen := true
          routeCount := st.routeCount, extractionCalled := false }) ∧
    (∀ (st : ProcessState) (rs : List ExtractResult),
      st.tier = Tier.free → st.routeCount < 5 → st.screenshotCount ≠ 0 →
      mergedStops rs ≠ [] →
      (handleProcessRoute st (Except.ok rs)).routeCount = st.routeCount + 1) := by
  constructor
  · intro st results ht hc hs
    unfold handleProcessRoute
    rw [if_neg hs, if_pos ⟨ht, hc⟩]
  · intro st rs ht hc hs hne
    unfold handleProcessRoute
    rw [if_neg hs, if_neg (by rintro ⟨-, h⟩; omega)]
    dsimp only
    rw [if_pos (List.length_pos.mpr hne), if_pos ht]

/-- Witness for C9: a Free-tier state at count 5 is refused with the
modal opened and nothing else changed. -/
theorem free_tier_gate_witness :
    handleProcessRoute
        { screenshotCount := 1, tier := Tier.free, routeCount := 5
          route := some demoTwo } (Except.ok []) =
      { route := some demoTwo, error := some freeLimitMessage, subModalOpen := true
        routeCount := 5, extractionCalled := false } :=
  free_tier_gate.1 _ _ rfl (by decide) (by decide)

end FlexOptimizer
